import Mathlib

/-!
Verification of the mIRC-log ingestion pipeline: a shallow embedding of
`scripts/irc-parser/parse_mirc_logs.py` (line-classification state machine that
recovers sessions/messages from raw log lines) and
`scripts/irc-parser/chunk_sessions.py` (bounded segmentation of a session's
message list into chunks), together with theorems settling the specification
claims about them.

Strings are modelled as Lean `String`/`List Char` (Python strings are sequences
of Unicode code points, as are Lean `String.data` lists; `len` = `List.length`).
Python regular expressions used by the scripts are concrete patterns and are
embedded as hand-written recognizer functions over `List Char`, with the
leftmost-match/backtracking behaviour worked out per pattern.  Python `\d` and
`int()` are modelled on ASCII digits (the logs' patterns only ever meet ASCII).
-/

namespace Mirc

/-! ## Whitespace (Python `str.strip` / regex `\s`, Unicode White_Space) -/

def isPySpace (c : Char) : Bool :=
  c == ' ' || c == '\t' || c == '\n' || c == '\r' ||
  c == '\u000B' || c == '\u000C' ||
  c == '\u001C' || c == '\u001D' || c == '\u001E' || c == '\u001F' ||
  c == '\u0085' || c == '\u00A0' || c == '\u1680' ||
  (decide (0x2000 ≤ c.toNat) && decide (c.toNat ≤ 0x200A)) ||
  c == '\u2028' || c == '\u2029' || c == '\u202F' || c == '\u205F' || c == '\u3000'

/-- Python `str.strip()` on a char list: drop leading and trailing whitespace. -/
def pyStripList (l : List Char) : List Char :=
  ((l.dropWhile isPySpace).reverse.dropWhile isPySpace).reverse

/-- Python `str.strip()`. -/
def pyStrip (s : String) : String := ⟨pyStripList s.data⟩

/-- Python `line.rstrip('\n\r')`: drop trailing newline/carriage-return chars. -/
def pyRstripNl (s : String) : String :=
  ⟨(s.data.reverse.dropWhile (fun c => c == '\n' || c == '\r')).reverse⟩

/-! ## mIRC control codes — `strip_mirc_codes` (parse_mirc_logs.py:117-130)

`MIRC_COLOR_PATTERN = \x03(\d{1,2}(,\d{1,2})?)?` substituted by `''`:
every `\x03` is removed together with the longest following argument of
1-2 digits optionally followed by a comma and 1-2 further digits (the comma is
consumed only when a digit follows it). -/

/-- Consume a leading `\d{1,2}` (greedy: two digits if available, else one;
nothing if the head is not a digit). -/
def dropDigits12 (l : List Char) : List Char :=
  match l with
  | d1 :: rest =>
    if d1.isDigit then
      match rest with
      | d2 :: rest2 => if d2.isDigit then rest2 else rest
      | [] => []
    else l
  | [] => []

/-- The span consumed after a `\x03` by `(\d{1,2}(,\d{1,2})?)?`: 1-2 digits,
then a comma plus 1-2 further digits, but the comma part only when a digit
follows the comma (otherwise the `(,\d{1,2})?` group matches empty). -/
def dropColorArg (l : List Char) : List Char :=
  match l with
  | d1 :: _ =>
    if d1.isDigit then
      let l1 := dropDigits12 l
      match l1 with
      | ',' :: e1 :: rest => if e1.isDigit then dropDigits12 (e1 :: rest) else l1
      | _ => l1
    else l
  | [] => l

/-- Worker for `removeColor` with an explicit step budget, `fuel ≥ l.length`
(the budget makes the recursion structural on `Nat`; fuel never runs out, see
`removeColorFuel_congr`). -/
def removeColorFuel : Nat → List Char → List Char
  | 0, _ => []
  | _ + 1, [] => []
  | fuel + 1, c :: rest =>
    if c = '\u0003' then removeColorFuel fuel (dropColorArg rest)
    else c :: removeColorFuel fuel rest

def removeColor (l : List Char) : List Char := removeColorFuel l.length l

/-- The six single-byte style toggles removed by `strip_mirc_codes`
(bold \x02, italic \x1d, underline \x1f, strikethrough \x1e, reverse \x16,
reset \x0f). -/
def isToggle (c : Char) : Bool :=
  c == '\u0002' || c == '\u001D' || c == '\u001F' ||
  c == '\u001E' || c == '\u0016' || c == '\u000F'

/-- Characters of the `MIRC_DECORATIONS` class (box drawing and decorative
glyphs); the regex `[...]+` substituted by `''` removes exactly the characters
of the class. -/
def decorChars : List Char :=
  ['─','│','┌','┐','└','┘','├','┤','┬','┴','┼','═','║','╒','╓','╔','╕','╖','╗',
   '╘','╙','╚','╛','╜','╝','╞','╟','╠','╡','╢','╣','╤','╥','╦','╧','╨','╩','╪',
   '╫','╬','▀','▄','█','▌','▐','░','▒','▓','■','□','▪','▫','►','◄','▲','▼','◊',
   '○','●','◘','◙','☺','☻','♠','♣','♥','♦','♪','♫','☼','↕','‼','¶','§','▬','↨',
   '↑','↓','→','←','∟','↔','⌂']

def isDecor (c : Char) : Bool := decorChars.contains c

def removeToggles (l : List Char) : List Char := l.filter (fun c => !isToggle c)

def removeDecor (l : List Char) : List Char := l.filter (fun c => !isDecor c)

/-- Model of `strip_mirc_codes` (parse_mirc_logs.py:117-130): remove color codes, then
the style toggles, then decorative characters, and finally `text.strip()`. -/
def strip_mirc_codes (s : String) : String :=
  ⟨pyStripList (removeDecor (removeToggles (removeColor s.data)))⟩

/-! ## `NOISE_PATTERNS` (parse_mirc_logs.py:58-73)

Each pattern is applied with `re.match` (anchored at position 0) to the
`strip_mirc_codes`-cleaned line; `re.IGNORECASE` is modelled by
case-insensitive comparison of the ASCII letters the patterns contain. -/

/-- Case-insensitive literal-prefix test (regex literal under `re.IGNORECASE`,
anchored at the current position). -/
def prefixCI : List Char → List Char → Bool
  | [], _ => true
  | _ :: _, [] => false
  | p :: ps, c :: cs => (c.toLower == p.toLower) && prefixCI ps cs

/-- The glyph class `[�★☆●○]` of the first two noise patterns. -/
def isNoiseGlyph (c : Char) : Bool :=
  c == '�' || c == '★' || c == '☆' || c == '●' || c == '○'

/-- Pattern `(joins|parts|quits|nick change|mode)` under IGNORECASE. -/
def noiseKeyword (l : List Char) : Bool :=
  prefixCI "joins".data l || prefixCI "parts".data l || prefixCI "quits".data l ||
  prefixCI "nick change".data l || prefixCI "mode".data l

/-- Tail of pattern 1 after the leading `\[`: `.*\]\s*[�★☆●○]\s*(joins|...)`;
a match exists iff some `]` position (reachable without crossing a newline,
which `.` cannot match) is followed by `\s*`, a glyph, `\s*` and a keyword. -/
def noiseP1After (l : List Char) : Bool :=
  match l.dropWhile isPySpace with
  | g :: r => isNoiseGlyph g && noiseKeyword (r.dropWhile isPySpace)
  | [] => false

def noiseP1Scan : List Char → Bool
  | [] => false
  | c :: rest => (c == ']' && noiseP1After rest) || (c != '\n' && noiseP1Scan rest)

/-- Pattern `^\[.*\]\s*[�★☆●○]\s*(joins|parts|quits|nick change|mode)` -/
def noiseP1 : List Char → Bool
  | '[' :: rest => noiseP1Scan rest
  | _ => false

/-- Pattern `^[�★☆●○]\s*(joins|parts|quits|nick change|mode|\[)` -/
def noiseP2 : List Char → Bool
  | g :: rest =>
    isNoiseGlyph g &&
      (let r := rest.dropWhile isPySpace
       noiseKeyword r || (match r with | '[' :: _ => true | _ => false))
  | _ => false

/-- Pattern `^\*\*\*\s+(Disconnected|Retrieving|Connecting)` -/
def noiseP3 : List Char → Bool
  | '*' :: '*' :: '*' :: c :: r =>
    isPySpace c &&
      (let r2 := r.dropWhile isPySpace
       prefixCI "disconnected".data r2 || prefixCI "retrieving".data r2 ||
       prefixCI "connecting".data r2)
  | _ => false

/-- Pattern `^\[\s*topic\.\.|modes\.\.|by\.\.|time\.\.` — a top-level alternation whose
four branches must each match at position 0 under `re.match`. -/
def noiseP4 (l : List Char) : Bool :=
  (match l with
   | '[' :: r => prefixCI "topic..".data (r.dropWhile isPySpace)
   | _ => false) ||
  prefixCI "modes..".data l || prefixCI "by..".data l || prefixCI "time..".data l

def noiseP5Run : List Char → Bool
  | c :: rest => if c == '�' || c == '_' then noiseP5Run rest else c == '['
  | [] => false

/-- Pattern `^[�_]+\[` (decorative headers). -/
def noiseP5 : List Char → Bool
  | c :: rest => (c == '�' || c == '_') && noiseP5Run rest
  | [] => false

def noiseP6Run : List Char → Bool
  | c :: rest => if c == '�' then noiseP6Run rest else c == '['
  | [] => false

/-- Pattern `^[�]+\[` (more decorative headers). -/
def noiseP6 : List Char → Bool
  | c :: rest => c == '�' && noiseP6Run rest
  | [] => false

/-- Pattern `^\s*<tag>` for the whois-block patterns `\[u@h:`, `\[realname:`,
`\[channels:`, `\[server:`, `\[idle:`. -/
def noiseWhoisTag (tag : String) (l : List Char) : Bool :=
  prefixCI tag.data (l.dropWhile isPySpace)

/-- Pattern `^\d{2}\s*[\[\-\*]` (mIRC color-coded lines starting with color numbers). -/
def noiseP12 : List Char → Bool
  | d1 :: rest1 =>
    d1.isDigit &&
      (match rest1 with
       | d2 :: rest2 =>
         d2.isDigit &&
           (match rest2.dropWhile isPySpace with
            | c :: _ => c == '[' || c == '-' || c == '*'
            | [] => false)
       | [] => false)
  | [] => false

/-- Pattern `^Local host:` -/
def noiseP13 (l : List Char) : Bool := prefixCI "Local host:".data l

/-- Pattern `^\s*$` (empty lines). -/
def noiseP14 (l : List Char) : Bool := l.all isPySpace

/-- Disjunction of all `NOISE_PATTERNS`, in source order, applied to the
cleaned character list. -/
def noiseAny (l : List Char) : Bool :=
  noiseP1 l || noiseP2 l || noiseP3 l || noiseP4 l || noiseP5 l || noiseP6 l ||
  noiseWhoisTag "[u@h:" l || noiseWhoisTag "[realname:" l ||
  noiseWhoisTag "[channels:" l || noiseWhoisTag "[server:" l ||
  noiseWhoisTag "[idle:" l || noiseP12 l || noiseP13 l || noiseP14 l

/-- Model of `is_noise_line` (parse_mirc_logs.py:133-139): clean the line first, then
try every noise pattern. -/
def is_noise_line (line : String) : Bool := noiseAny (strip_mirc_codes line).data

/-! ## Session-boundary and message patterns (parse_mirc_logs.py:47-55) -/

/-- Anchored literal prefix: on success return the remainder of the line. -/
def afterLit (pfx : List Char) (l : List Char) : Option (List Char) :=
  if pfx.isPrefixOf l then some (l.drop pfx.length) else none

/-- The group of a trailing `(.*)$`: `.` cannot match a newline and `$` matches
only at the end of the string or just before a final newline, so the group is
the whole remainder unless it contains a newline, in which case only a single
final newline is tolerated (and excluded from the group). -/
def dollarStarGroup (l : List Char) : Option (List Char) :=
  if l.contains '\n' then
    match l.reverse with
    | '\n' :: rest => if rest.contains '\n' then none else some rest.reverse
    | _ => none
  else some l

/-- The group of a trailing `(.+)$`: as `dollarStarGroup` but non-empty. -/
def dollarPlusGroup (l : List Char) : Option (List Char) :=
  match dollarStarGroup l with
  | some g => if g.isEmpty then none else some g
  | none => none

/-- Model of `SESSION_START_PATTERN = ^Session Start: (.+)$` via `re.match`. -/
def sessionStartMatch (line : String) : Option String :=
  match afterLit "Session Start: ".data line.data with
  | some r => (dollarPlusGroup r).map (fun g => ⟨g⟩)
  | none => none

/-- Model of `SESSION_CLOSE_PATTERN = ^Session Close: (.+)$` via `re.match`. -/
def sessionCloseMatch (line : String) : Option String :=
  match afterLit "Session Close: ".data line.data with
  | some r => (dollarPlusGroup r).map (fun g => ⟨g⟩)
  | none => none

/-- Model of `SESSION_IDENT_PATTERN = ^Session Ident: (\S+)` via `re.match`: the group
is the maximal non-empty run of non-whitespace after the literal. -/
def sessionIdentMatch (line : String) : Option String :=
  match afterLit "Session Ident: ".data line.data with
  | some r =>
    let tok := r.takeWhile (fun c => !isPySpace c)
    if tok.isEmpty then none else some ⟨tok⟩
  | none => none

/-- Pattern `\d{1,2}:\d{2}` at the head of `l`: greedily two hour digits when the
character after them is `:`, else one digit; exactly two minute digits.
Returns the matched time text and the rest. -/
def timeTokMatch (l : List Char) : Option (List Char × List Char) :=
  match l with
  | a :: b :: c :: rest =>
    if a.isDigit then
      if b.isDigit then
        match c, rest with
        | ':', m1 :: m2 :: r2 =>
          if m1.isDigit && m2.isDigit then some ([a, b, ':', m1, m2], r2) else none
        | _, _ => none
      else if b = ':' then
        match rest with
        | m2 :: r2 => if c.isDigit && m2.isDigit then some ([a, ':', c, m2], r2) else none
        | [] => none
      else none
    else none
  | _ => none

/-- Pattern `\s+`: at least one whitespace character, consumed greedily. -/
def wsPlus (l : List Char) : Option (List Char) :=
  match l with
  | c :: rest => if isPySpace c then some (rest.dropWhile isPySpace) else none
  | [] => none

/-- Shared tail of the two message patterns: after the opening bracket of the
identity group, with `close` the closing delimiter (`]` or `)`): the identity
is `[^\x7bclose\x7d]+`, then `close`, then `\s+`, then the `(.*)$` text group. -/
def nickTextMatch (close : Char) (l : List Char) : Option (List Char × List Char) :=
  let nick := l.takeWhile (fun c => c ≠ close)
  if nick.isEmpty then none
  else
    match l.dropWhile (fun c => c ≠ close) with
    | c :: r6 =>
      if c = close then
        match wsPlus r6 with
        | some r7 =>
          match dollarStarGroup r7 with
          | some txt => some (nick, txt)
          | none => none
        | none => none
      else none
    | [] => none

/-- Model of `OTHER_USER_MSG_PATTERN = ^\[(\d{1,2}:\d{2})\]\s+\[([^\]]+)\]\s+(.*)$`:
returns (time text, identity, raw text group). -/
def otherMsgMatch (line : String) : Option (String × String × String) :=
  match line.data with
  | '[' :: r1 =>
    match timeTokMatch r1 with
    | some (tok, r2) =>
      match r2 with
      | ']' :: r3 =>
        match wsPlus r3 with
        | some r4 =>
          match r4 with
          | '[' :: r5 =>
            match nickTextMatch ']' r5 with
            | some (nick, txt) => some (⟨tok⟩, ⟨nick⟩, ⟨txt⟩)
            | none => none
          | _ => none
        | none => none
      | _ => none
    | none => none
  | _ => none

/-! ## `parse_datetime` (parse_mirc_logs.py:142-158)

`datetime.strptime` is modelled per directive: `%a`/`%b` match the locale's
abbreviated day/month names case-insensitively; `%d` matches `3[01]|[12]\d|
0[1-9]|[1-9]`; `%H` matches `2[0-3]|[0-1]\d|\d`; `%M` matches `[0-5]\d|\d`;
`%S` matches `6[01]|[0-5]\d|\d`; `%Y` exactly four digits, `%y` exactly two
(with the 69-pivot mapping); whitespace in the format string is normalised to
`\s+`; any unconverted trailing data fails the parse; the final
`datetime(...)` construction additionally validates the day against the month
length, seconds ≤ 59 and year ≥ 1.  A failed parse tries the next format. -/

structure DateTimeP where
  year : Int
  month : Nat
  day : Nat
  hour : Nat
  minute : Nat
  second : Nat
deriving Repr, DecidableEq

def digitVal (c : Char) : Nat := c.toNat - 48

/-- A 1-2 digit numeric directive: the two-digit branch applies when its value
pattern accepts, else the one-digit branch (regex alternation; the longer
branches come first in strptime's patterns). -/
def matchNum2or1 (valid2 valid1 : Nat → Bool) : List Char → Option (Nat × List Char)
  | a :: b :: r =>
    if a.isDigit && b.isDigit && valid2 (digitVal a * 10 + digitVal b) then
      some (digitVal a * 10 + digitVal b, r)
    else if a.isDigit && valid1 (digitVal a) then some (digitVal a, b :: r)
    else none
  | [a] => if a.isDigit && valid1 (digitVal a) then some (digitVal a, []) else none
  | [] => none

def matchYear4 : List Char → Option (Nat × List Char)
  | a :: b :: c :: d :: r =>
    if a.isDigit && b.isDigit && c.isDigit && d.isDigit then
      some (digitVal a * 1000 + digitVal b * 100 + digitVal c * 10 + digitVal d, r)
    else none
  | _ => none

/-- Pattern `%y`: exactly two digits; values 0-68 mean 2000-2068, 69-99 mean 1969-1999. -/
def matchYear2 : List Char → Option (Nat × List Char)
  | a :: b :: r =>
    if a.isDigit && b.isDigit then
      let v := digitVal a * 10 + digitVal b
      some (if v ≤ 68 then 2000 + v else 1900 + v, r)
    else none
  | _ => none

def matchNameCIAux : Nat → List (List Char) → List Char → Option (Nat × List Char)
  | _, [], _ => none
  | i, n :: ns, l =>
    if prefixCI n l then some (i, l.drop n.length) else matchNameCIAux (i + 1) ns l

/-- First name of the list that matches case-insensitively at the head of `l`
(1-based index, remainder). -/
def matchNameCI (names : List (List Char)) (l : List Char) : Option (Nat × List Char) :=
  matchNameCIAux 1 names l

def weekdayNames : List (List Char) :=
  ["mon".data, "tue".data, "wed".data, "thu".data, "fri".data, "sat".data, "sun".data]

def monthNames : List (List Char) :=
  ["jan".data, "feb".data, "mar".data, "apr".data, "may".data, "jun".data,
   "jul".data, "aug".data, "sep".data, "oct".data, "nov".data, "dec".data]

def isLeapYear (y : Int) : Bool :=
  y % 4 == 0 && (y % 100 != 0 || y % 400 == 0)

def daysInMonth (y : Int) (m : Nat) : Nat :=
  if m = 2 then (if isLeapYear y then 29 else 28)
  else if m = 4 ∨ m = 6 ∨ m = 9 ∨ m = 11 then 30 else 31

def expectChar (c : Char) : List Char → Option (List Char)
  | x :: r => if x = c then some r else none
  | [] => none

/-- Model of `datetime.strptime(s, '%a %b %d %H:%M:%S %Y')` (or the `%y` variant). -/
def strptimeMirc (twoDigitYear : Bool) (s : List Char) : Option DateTimeP := do
  let (_, r1) ← matchNameCI weekdayNames s
  let r2 ← wsPlus r1
  let (month, r3) ← matchNameCI monthNames r2
  let r4 ← wsPlus r3
  let (day, r5) ← matchNum2or1
      (fun v => decide (1 ≤ v) && decide (v ≤ 31)) (fun v => decide (1 ≤ v)) r4
  let r6 ← wsPlus r5
  let (hour, r7) ← matchNum2or1 (fun v => decide (v ≤ 23)) (fun _ => true) r6
  let r8 ← expectChar ':' r7
  let (minute, r9) ← matchNum2or1 (fun v => decide (v ≤ 59)) (fun _ => true) r8
  let r10 ← expectChar ':' r9
  let (second, r11) ← matchNum2or1 (fun v => decide (v ≤ 61)) (fun _ => true) r10
  let r12 ← wsPlus r11
  let (year, r13) ← if twoDigitYear then matchYear2 r12 else matchYear4 r12
  if r13.isEmpty then
    if 1 ≤ year ∧ day ≤ daysInMonth year month ∧ second ≤ 59 then
      some ⟨year, month, day, hour, minute, second⟩
    else none
  else none

/-- Model of `parse_datetime` (parse_mirc_logs.py:142-158): strip the input, then try
the format list in order, first success wins, `None` when all fail.  The third
source format (`'%a %b  %d %H:%M:%S %Y'`, extra space for single-digit days)
is identical to the first once strptime normalises format whitespace to
`\s+`, and is modelled as such. -/
def parse_datetime (date_str : String) : Option DateTimeP :=
  let s := pyStripList date_str.data
  match strptimeMirc false s with
  | some dt => some dt
  | none =>
    match strptimeMirc true s with
    | some dt => some dt
    | none => strptimeMirc false s

/-- Model of `YOUR_MSG_PATTERN = ^\[(\d{1,2}:\d{2})\]\s+\(([^)]+)\)\s+(.*)$`. -/
def yourMsgMatch (line : String) : Option (String × String × String) :=
  match line.data with
  | '[' :: r1 =>
    match timeTokMatch r1 with
    | some (tok, r2) =>
      match r2 with
      | ']' :: r3 =>
        match wsPlus r3 with
        | some r4 =>
          match r4 with
          | '(' :: r5 =>
            match nickTextMatch ')' r5 with
            | some (nick, txt) => some (⟨tok⟩, ⟨nick⟩, ⟨txt⟩)
            | none => none
          | _ => none
        | none => none
      | _ => none
    | none => none
  | _ => none

/-! ## Participants: Python `set()` + `sorted(list(...))`

The running `participants` set is modelled as its insertion-ordered list of
distinct elements (`addNick`); `sorted` is ascending code-point order. -/

def addNick (parts : List String) (n : String) : List String :=
  if n ∈ parts then parts else parts ++ [n]

def dedupStr (l : List String) : List String := l.foldl addNick []

/-- Python string `<` / `<=`: lexicographic on code points. -/
def charListLe : List Char → List Char → Bool
  | [], _ => true
  | _ :: _, [] => false
  | a :: as, b :: bs => if a = b then charListLe as bs else decide (a < b)

def strLe (a b : String) : Bool := charListLe a.data b.data

def insertSorted (a : String) : List String → List String
  | [] => [a]
  | b :: bs => if strLe a b then a :: b :: bs else b :: insertSorted a bs

/-- Python `sorted(...)` on a list of (distinct) strings: stable insertion
sort into ascending code-point order. -/
def sortStrings (l : List String) : List String := l.foldr insertSorted []

/-- Model of `sorted(list(set(nicks)))` as a function of the message list. -/
def participantsOfNicks (nicks : List String) : List String :=
  sortStrings (dedupStr nicks)

/-! ## Filename handling (parse_mirc_logs.py:161-185) -/

def splitOnChar (sep : Char) : List Char → List (List Char)
  | [] => [[]]
  | c :: rest =>
    if c = sep then [] :: splitOnChar sep rest
    else
      match splitOnChar sep rest with
      | h :: t => (c :: h) :: t
      | [] => [[c]]

def strStartsWith (p s : String) : Bool := p.data.isPrefixOf s.data

/-- Model of `Path(filename).stem`: the final `/`-separated component with its last
dot-suffix removed (a dot at the start of the name starts no suffix). -/
def pathStem (s : String) : String :=
  let name := (splitOnChar '/' s.data).getLastD []
  match name.reverse.dropWhile (fun c => c ≠ '.') with
  | '.' :: pre => if pre.isEmpty then ⟨name⟩ else ⟨pre.reverse⟩
  | _ => ⟨name⟩

/-- Model of `base.rsplit('.', 1)` when a dot occurs: the part before the last dot and
the part after it. -/
def rsplitDot (l : List Char) : Option (List Char × List Char) :=
  let rev := l.reverse
  match rev.dropWhile (fun c => c ≠ '.') with
  | '.' :: preRev => some (preRev.reverse, (rev.takeWhile (fun c => c ≠ '.')).reverse)
  | _ => none

/-- Python `str.isdigit` (modelled on ASCII): non-empty and all digits. -/
def pyIsDigitStr (l : List Char) : Bool := !l.isEmpty && l.all Char.isDigit

/-- Model of `extract_channel_info` (parse_mirc_logs.py:161-185):
returns (channel, target_nick, network). -/
def extract_channel_info (filename : String) : Option String × Option String × Option String :=
  let base := pathStem filename
  let is_channel := strStartsWith "#" base || strStartsWith "@" base
  let (name, network) :=
    match rsplitDot base.data with
    | some (pre, suf) =>
      if !pyIsDigitStr suf then ((⟨pre⟩ : String), some (⟨suf⟩ : String))
      else (base, none)
    | none => (base, none)
  (if is_channel then some name else none,
   if is_channel then none else some name,
   network)

/-! ## Data model and session-builder state machine
(parse_mirc_logs.py:79-110 and 188-300) -/

structure Message where
  time : String
  nick : String
  text : String
  is_self : Bool
deriving Repr, DecidableEq

structure SessionR where
  session_id : String
  source_file : String
  channel : Option String
  target_nick : Option String
  start_time : Option DateTimeP
  end_time : Option DateTimeP
  participants : List String
  messages : List Message
  network : Option String
deriving Repr, DecidableEq

/-- Per-file constants computed before any line is processed. -/
structure FileCfg where
  filepath : String
  stem : String
  channel : Option String
  target_nick : Option String
  network : Option String
deriving Repr, DecidableEq

def mkFileCfg (filepath : String) : FileCfg :=
  let (channel, target_nick, network) := extract_channel_info filepath
  ⟨filepath, pathStem filepath, channel, target_nick, network⟩

/-- Loop state of `parse_log_file`: the open session (if any), the per-file
session counter, the running participant set, and the sessions yielded so
far. -/
structure PState where
  current : Option SessionR
  sessionCount : Nat
  participants : List String
  emitted : List SessionR
deriving Repr, DecidableEq

def initPState : PState := ⟨none, 0, [], []⟩

/-- Python `f"{n:04d}"` (positive argument): decimal, zero-padded to ≥ 4. -/
def padZeros (w : Nat) (n : Nat) : String :=
  let s := toString n
  ⟨List.replicate (w - s.length) '0' ++ s.data⟩

/-- Freeze-and-emit of a non-empty open session (participants finalised to the
sorted running set); an open session without messages is dropped. -/
def finalizeEmit (st : PState) : List SessionR :=
  match st.current with
  | some cs =>
    if cs.messages.isEmpty then st.emitted
    else st.emitted ++ [{ cs with participants := sortStrings st.participants }]
  | none => st.emitted

/-- The tail of the line loop (parse_mirc_logs.py:258-295): skip when no
session is active, skip noise lines, then try the other-user and own message
patterns on the cleaned line, appending a `Message` (and its nick to the
participant set) when the extracted text is non-empty; otherwise the line is
ignored. -/
def processMsgPart (st : PState) (line : String) : PState :=
  match st.current with
  | none => st
  | some cs =>
    if is_noise_line line then st
    else
      let cleaned := strip_mirc_codes line
      match otherMsgMatch cleaned with
      | some (t, nick, txt) =>
        let text := pyStrip txt
        if text.isEmpty then st
        else
          { st with
            current := some { cs with messages := cs.messages ++ [⟨t, nick, text, false⟩] },
            participants := addNick st.participants nick }
      | none =>
        match yourMsgMatch cleaned with
        | some (t, nick, txt) =>
          let text := pyStrip txt
          if text.isEmpty then st
          else
            { st with
              current := some { cs with messages := cs.messages ++ [⟨t, nick, text, true⟩] },
              participants := addNick st.participants nick }
        | none => st

/-- One iteration of the line loop of `parse_log_file`
(parse_mirc_logs.py:214-295), in source order: session start, session close,
session ident, then the no-session/noise/message tail (`processMsgPart`). -/
def processLine (cfg : FileCfg) (st : PState) (raw : String) : PState :=
  let line := pyRstripNl raw
  match sessionStartMatch line with
  | some rest =>
    let emitted := finalizeEmit st
    let n := st.sessionCount + 1
    { current := some
        { session_id := cfg.stem ++ "_" ++ padZeros 4 n,
          source_file := cfg.filepath,
          channel := cfg.channel,
          target_nick := cfg.target_nick,
          start_time := parse_datetime rest,
          end_time := none,
          participants := [],
          messages := [],
          network := cfg.network },
      sessionCount := n, participants := [], emitted := emitted }
  | none =>
  match sessionCloseMatch line, st.current with
  | some rest, some cs =>
    { st with current := some { cs with end_time := parse_datetime rest } }
  | _, _ =>
  match sessionIdentMatch line, st.current, cfg.channel with
  | some ident, some cs, none =>
    if !strStartsWith "#" ident && ident ≠ "Status" && ident ≠ "Window" then
      { st with current := some { cs with target_nick := some ident } }
    else st
  | _, _, _ => processMsgPart st line

def runLines (cfg : FileCfg) (st : PState) (lines : List String) : PState :=
  lines.foldl (processLine cfg) st

/-- All sessions yielded by `parse_log_file` on the given decoded lines:
the loop over the lines followed by the final freeze-and-emit
(parse_mirc_logs.py:297-300). -/
def parseLogFileLines (filepath : String) (lines : List String) : List SessionR :=
  finalizeEmit (runLines (mkFileCfg filepath) initPState lines)

/-! ## Encoding fallback (parse_mirc_logs.py:197-212)

The file-opening attempt per encoding is abstracted as an oracle
`decode : encoding-name → Option (list of raw lines)`; the loop takes the
first encoding whose read succeeds (`UnicodeDecodeError` → try the next), and
when `content is None` after the loop, a warning is printed and the function
returns without yielding. -/

def encodings : List String := ["utf-8", "cp1252", "latin-1", "iso-8859-1"]

def firstDecode (decode : String → Option (List String)) : List String → Option (List String)
  | [] => none
  | e :: rest =>
    match decode e with
    | some content => some content
    | none => firstDecode decode rest

structure ParseFileResult where
  sessions : List SessionR
  decodeWarning : Bool
deriving Repr, DecidableEq

def parse_log_file (decode : String → Option (List String)) (filepath : String) :
    ParseFileResult :=
  match firstDecode decode encodings with
  | none => ⟨[], true⟩
  | some content => ⟨parseLogFileLines filepath content, false⟩

end Mirc

namespace Chunker

/-! ## Chunker — `chunk_sessions.py`

The chunker consumes session records from the parser's JSONL output.  A
message record carries `time`/`nick`/`text` (plus `is_self`, unused here) and
is reused from the parser model.  The session's ISO `start_time` string is
parsed once with `datetime.fromisoformat` (falling back to `None`); the
resulting datetime is modelled by its year, an absolute day number of its date
part, and its time of day.  `should_split` only ever uses the datetime through
`replace(hour=…, minute=…)`, comparison and subtraction, and `replace` keeps
the date (and second/microsecond, which cancel between the two replaced
values), so a replaced datetime is faithfully represented by
`dayNumber * 1440 + hour * 60 + minute` total minutes. -/

open Mirc (Message isPySpace pyStripList splitOnChar sortStrings dedupStr addNick)

/-- Configuration constants (chunk_sessions.py:32-34). -/
def MAX_MESSAGES_PER_CHUNK : Nat := 20

def MAX_CHARS_PER_CHUNK : Nat := 8000

def TIME_GAP_MINUTES : Int := 30

/-- The result of `datetime.fromisoformat(session['start_time'])`. -/
structure IsoDateTime where
  year : Int
  dayNumber : Int
  minuteOfDay : Nat
deriving Repr, DecidableEq

/-- Python `int(s)` (modelled on ASCII digits): optional surrounding
whitespace, optional sign, at least one digit. -/
def pyInt (l : List Char) : Option Int :=
  let t := pyStripList l
  let digits : List Char → Option Nat := fun ds =>
    if ds.isEmpty || !ds.all Char.isDigit then none
    else some (ds.foldl (fun acc c => acc * 10 + (c.toNat - 48)) 0)
  match t with
  | '+' :: ds => (digits ds).map (fun n => (n : Int))
  | '-' :: ds => (digits ds).map (fun n => -(n : Int))
  | ds => (digits ds).map (fun n => (n : Int))

/-- Model of `parse_time` (chunk_sessions.py:67-76): `None` on falsy (empty) time text
or missing session date; otherwise `hour, minute = map(int, time_str.split(':'))`
(exactly two int-parseable parts) and `session_date.replace(hour=…, minute=…)`
(which validates 0 ≤ hour ≤ 23 and 0 ≤ minute ≤ 59, raising → `None`
otherwise).  The replaced datetime is returned as total minutes. -/
def parse_time (time_str : String) (session_date : Option IsoDateTime) : Option Int :=
  if time_str.isEmpty then none
  else
    match session_date with
    | none => none
    | some sd =>
      match (splitOnChar ':' time_str.data).map pyInt with
      | [some h, some m] =>
        if 0 ≤ h ∧ h ≤ 23 ∧ 0 ≤ m ∧ m ≤ 59 then
          some (sd.dayNumber * 1440 + h * 60 + m)
        else none
      | _ => none

/-- Model of `should_split` (chunk_sessions.py:100-113): `False` unless both times
parse; day rollover: a candidate earlier in the day than its predecessor is
moved one day later; split when the gap exceeds `TIME_GAP_MINUTES`. -/
def should_split (prev_msg curr_msg : Message) (session_date : Option IsoDateTime) : Bool :=
  match parse_time prev_msg.time session_date, parse_time curr_msg.time session_date with
  | some prev_time, some curr_time =>
    let curr2 := if curr_time < prev_time then curr_time + 1440 else curr_time
    decide (curr2 - prev_time > TIME_GAP_MINUTES)
  | _, _ => false

/-- The formatted line of one message, `f"{nick}: {text}\n"`, whose length is
what `current_chars` accumulates (chunk_sessions.py:144). -/
def msgLine (m : Message) : String := m.nick ++ ": " ++ m.text ++ "\n"

/-- Python `'\n'.join`. -/
def joinNl : List String → String
  | [] => ""
  | [x] => x
  | x :: xs => x ++ "\n" ++ joinNl xs

/-- Model of `format_chunk_text` (chunk_sessions.py:79-86). -/
def format_chunk_text (messages : List Message) : String :=
  joinNl (messages.map (fun m => m.nick ++ ": " ++ m.text))

/-- Model of `get_year_and_decade` (chunk_sessions.py:89-97); `//` is Python floor
division. -/
def get_year_and_decade : Option IsoDateTime → Option Int × Option String
  | none => (none, none)
  | some dt =>
    let decade_start := Int.fdiv dt.year 10 * 10
    (some dt.year, some (toString decade_start ++ "s"))

/-- The session record as read by `chunk_session` (chunk_sessions.py:116-136);
`start_dt` is the already-parsed `datetime.fromisoformat(session['start_time'])`
(or `none` when the field is absent/unparseable). -/
structure ChunkSessionR where
  session_id : String
  source_file : String
  channel : Option String
  target_nick : Option String
  network : Option String
  start_dt : Option IsoDateTime
  messages : List Message
deriving Repr, DecidableEq

/-- A produced `Chunk` (chunk_sessions.py:41-57).  The extra `msgs` field is a
ghost record of the buffered messages the chunk was built from (the
`current_chunk` list at emission time); every other field is computed from it
exactly as in the source. -/
structure Chunk where
  chunk_id : String
  session_id : String
  source_file : String
  channel : Option String
  target_nick : Option String
  network : Option String
  participants : List String
  start_time : Option String
  end_time : Option String
  year : Option Int
  decade : Option String
  text : String
  message_count : Nat
  chunk_index : Nat
  msgs : List Message
deriving Repr, DecidableEq

structure ChunkCtx where
  session_id : String
  source_file : String
  channel : Option String
  target_nick : Option String
  network : Option String
  session_date : Option IsoDateTime
  year : Option Int
  decade : Option String
deriving Repr, DecidableEq

def mkCtx (s : ChunkSessionR) : ChunkCtx :=
  let (year, decade) := get_year_and_decade s.start_dt
  ⟨s.session_id, s.source_file, s.channel, s.target_nick, s.network, s.start_dt, year, decade⟩

/-- Chunk emission (chunk_sessions.py:161-190 and 201-224): participants are
the sorted distinct nicks of the buffer, `chunk_id` appends the zero-padded
index, text joins the formatted lines, the time range is the first/last
buffered message's literal time. -/
def mkChunk (ctx : ChunkCtx) (cur : List Message) (idx : Nat) : Chunk :=
  { chunk_id := ctx.session_id ++ "_chunk" ++ Mirc.padZeros 3 idx,
    session_id := ctx.session_id,
    source_file := ctx.source_file,
    channel := ctx.channel,
    target_nick := ctx.target_nick,
    network := ctx.network,
    participants := sortStrings (dedupStr (cur.map Message.nick)),
    start_time := cur.head?.map Message.time,
    end_time := cur.getLast?.map Message.time,
    year := ctx.year,
    decade := ctx.decade,
    text := format_chunk_text cur,
    message_count := cur.length,
    chunk_index := idx,
    msgs := cur }

/-- The flush decision computed for each message before it is added
(chunk_sessions.py:147-158): time-gap check against the buffer's last message
(only when the buffer is non-empty), message-count check, character-budget
check. -/
def should_start_new (cur : List Message) (chars : Nat) (m : Message)
    (sd : Option IsoDateTime) : Bool :=
  (match cur.getLast? with
   | some prev => should_split prev m sd
   | none => false) ||
  decide (MAX_MESSAGES_PER_CHUNK ≤ cur.length) ||
  decide (MAX_CHARS_PER_CHUNK < chars + (msgLine m).length)

/-- The message loop of `chunk_session` (chunk_sessions.py:143-224):
flush-before-add when the decision fires and the buffer is non-empty, then
append; after the loop, flush any non-empty remainder. -/
def chunkLoop (ctx : ChunkCtx) (cur : List Message) (chars : Nat) (idx : Nat) :
    List Message → List Chunk
  | [] => if cur.isEmpty then [] else [mkChunk ctx cur idx]
  | m :: rest =>
    if should_start_new cur chars m ctx.session_date && !cur.isEmpty then
      mkChunk ctx cur idx :: chunkLoop ctx [m] (msgLine m).length (idx + 1) rest
    else
      chunkLoop ctx (cur ++ [m]) (chars + (msgLine m).length) idx rest

/-- Model of `chunk_session` (chunk_sessions.py:116-224). -/
def chunk_session (s : ChunkSessionR) : List Chunk :=
  if s.messages.isEmpty then [] else chunkLoop (mkCtx s) [] 0 0 s.messages

/-- Default of the `--min-messages` option of `chunk_sessions.py` (line 263). -/
def DEFAULT_MIN_MESSAGES : Nat := 3

/-- The chunk records written by `process_sessions`
(chunk_sessions.py:227-249): for each session in input order, the chunks
yielded by `chunk_session` whose `message_count` reaches `min_messages`. -/
def process_sessions (sessions : List ChunkSessionR) (min_messages : Nat) : List Chunk :=
  ((sessions.map chunk_session).flatten).filter
    (fun c => decide (min_messages ≤ c.message_count))

end Chunker

/-! ## Verification-specific definitions: loop invariants and concrete fixtures -/

namespace Chunker

/-- Sum of formatted-line lengths: the value `current_chars` tracks for the
buffer. -/
def sumChars (ms : List Mirc.Message) : Nat := (ms.map (fun m => (msgLine m).length)).sum

/-- Invariant of the buffer state maintained by `chunkLoop`. -/
def BufInv (sd : Option IsoDateTime) (cur : List Mirc.Message) (chars : Nat) : Prop :=
  chars = sumChars cur ∧ cur.length ≤ MAX_MESSAGES_PER_CHUNK ∧
  (2 ≤ cur.length → chars ≤ MAX_CHARS_PER_CHUNK) ∧
  List.Chain' (fun a b => should_split a b sd = false) cur

/-- What every emitted chunk satisfies. -/
def GoodChunk (sd : Option IsoDateTime) (c : Chunk) : Prop :=
  c.message_count = c.msgs.length ∧ c.text = format_chunk_text c.msgs ∧
  c.message_count ≤ MAX_MESSAGES_PER_CHUNK ∧
  (2 ≤ c.message_count → c.text.length ≤ MAX_CHARS_PER_CHUNK) ∧
  List.Chain' (fun a b => should_split a b sd = false) c.msgs

/-- A small two-message session used as a concrete witness input. -/
def wSessionC1 : ChunkSessionR :=
  { session_id := "w1", source_file := "w.log", channel := none, target_nick := none,
    network := none, start_dt := some ⟨2003, 0, 0⟩,
    messages := [⟨"10:00", "ann", "hi", false⟩, ⟨"10:05", "bob", "yo", true⟩] }

/-- A session whose single message formats to a line of 8004 characters. -/
def cexSession : ChunkSessionR :=
  { session_id := "cex", source_file := "c.log", channel := none, target_nick := none,
    network := none, start_dt := none,
    messages := [⟨"10:00", "a", ⟨List.replicate 8000 'x'⟩, false⟩] }

/-- Three messages, a lone middle message separated by one-hour gaps, three
more messages: chunk sizes 3, 1, 3. -/
def gapSession : ChunkSessionR :=
  { session_id := "g", source_file := "g.log", channel := none, target_nick := none,
    network := none, start_dt := some ⟨2003, 0, 0⟩,
    messages :=
      [⟨"00:00", "a", "m1", false⟩, ⟨"00:01", "b", "m2", false⟩, ⟨"00:02", "a", "m3", false⟩,
       ⟨"01:00", "c", "m4", false⟩,
       ⟨"02:00", "a", "m5", false⟩, ⟨"02:01", "b", "m6", false⟩, ⟨"02:02", "c", "m7", false⟩] }

/-- A session with a single short message (below the default threshold). -/
def oneMsgSession : ChunkSessionR :=
  { session_id := "o", source_file := "o.log", channel := none, target_nick := none,
    network := none, start_dt := none, messages := [⟨"10:00", "a", "hi", false⟩] }

end Chunker

namespace Mirc

/-- The state invariant of the line loop: the running participant set is the
set of nicks of the open session's messages, and every yielded session is
non-empty with participants equal to the sorted distinct nicks of its
messages. -/
def PInv (st : PState) : Prop :=
  (∀ cs, st.current = some cs →
    st.participants = dedupStr (cs.messages.map Message.nick)) ∧
  (∀ s ∈ st.emitted, s.messages ≠ [] ∧
    s.participants = participantsOfNicks (s.messages.map Message.nick))

/-- A parser state with one open session holding one message, used as a
concrete witness input. -/
def wOpenState : PState :=
  { current := some ⟨"w_0001", "w.log", none, some "w", none, none, [],
      [⟨"10:00", "ann", "hi", false⟩], none⟩,
    sessionCount := 1, participants := ["ann"], emitted := [] }

end Mirc

/-! # Lemmas and claim theorems -/

namespace Mirc

theorem dropDigits12_length_le (l : List Char) : (dropDigits12 l).length ≤ l.length := by
  match l with
  | [] => simp [dropDigits12]
  | [d1] => by_cases h : d1.isDigit <;> simp [dropDigits12, h]
  | d1 :: d2 :: rest2 =>
    by_cases h1 : d1.isDigit
    · by_cases h2 : d2.isDigit
      · simp only [dropDigits12, h1, h2, if_true, List.length_cons]
        omega
      · simp [dropDigits12, h1, h2]
    · simp [dropDigits12, h1]

theorem dropColorArg_length_le (l : List Char) : (dropColorArg l).length ≤ l.length := by
  match l with
  | [] => simp [dropColorArg]
  | d1 :: rest =>
    by_cases h : d1.isDigit
    · have h1 := dropDigits12_length_le (d1 :: rest)
      simp only [dropColorArg, if_pos h]
      split
      · next e1 r heq =>
        split
        · have h2 := dropDigits12_length_le (e1 :: r)
          rw [heq] at h1
          simp only [List.length_cons] at h1 h2 ⊢
          omega
        · exact h1
      · exact h1
    · simp [dropColorArg, h]

theorem removeColorFuel_congr : ∀ (n : Nat) (l : List Char) (f1 f2 : Nat),
    l.length = n → n ≤ f1 → n ≤ f2 → removeColorFuel f1 l = removeColorFuel f2 l := by
  intro n
  induction n using Nat.strong_induction_on with
  | _ n ih =>
    intro l f1 f2 hn h1 h2
    match l, f1, f2 with
    | [], 0, 0 => rfl
    | [], 0, _ + 1 => rfl
    | [], _ + 1, 0 => rfl
    | [], _ + 1, _ + 1 => rfl
    | c :: rest, f1 + 1, f2 + 1 =>
      simp only [removeColorFuel]
      have hlen : rest.length < n := by simp [List.length_cons] at hn; omega
      split
      · exact ih _ (Nat.lt_of_le_of_lt (dropColorArg_length_le rest) hlen) _ _ _ rfl
          (by have := dropColorArg_length_le rest; omega)
          (by have := dropColorArg_length_le rest; omega)
      · exact congrArg _ (ih rest.length hlen rest f1 f2 rfl (by omega) (by omega))
    | _ :: _, 0, _ => exact absurd hn (by simp [List.length_cons]; omega)
    | _ :: _, _ + 1, 0 => exact absurd hn (by simp [List.length_cons]; omega)

theorem removeColor_cons_ne (c : Char) (rest : List Char) (h : ¬ c = '\u0003') :
    removeColor (c :: rest) = c :: removeColor rest := by
  simp only [removeColor, List.length_cons, removeColorFuel, if_neg h]

theorem removeColor_cons_color (rest : List Char) :
    removeColor ('\u0003' :: rest) = removeColor (dropColorArg rest) := by
  simp only [removeColor, List.length_cons, removeColorFuel, if_pos rfl]
  exact removeColorFuel_congr (dropColorArg rest).length (dropColorArg rest) rest.length
    (dropColorArg rest).length rfl (dropColorArg_length_le rest) (Nat.le_refl _)

end Mirc

namespace Chunker

/-! ## Chunk-loop invariants -/

theorem sumChars_append (l : List Mirc.Message) (m : Mirc.Message) :
    sumChars (l ++ [m]) = sumChars l + (msgLine m).length := by
  simp [sumChars]

theorem format_chunk_text_length : ∀ (ms : List Mirc.Message), ms ≠ [] →
    (format_chunk_text ms).length + 1 = sumChars ms
  | [], h => absurd rfl h
  | [m], _ => by
    simp only [format_chunk_text, joinNl, sumChars, msgLine, List.map_cons, List.map_nil,
      List.sum_cons, List.sum_nil, String.length_append]
    rfl
  | m :: m2 :: rest, _ => by
    have ih := format_chunk_text_length (m2 :: rest) (by simp)
    simp only [format_chunk_text, joinNl, sumChars, msgLine, List.map_cons, List.sum_cons,
      String.length_append] at ih ⊢
    omega

theorem mkChunk_good (ctx : ChunkCtx) (cur : List Mirc.Message) (chars idx : Nat)
    (hne : ¬ cur.isEmpty) (hinv : BufInv ctx.session_date cur chars) :
    GoodChunk ctx.session_date (mkChunk ctx cur idx) := by
  obtain ⟨hchars, hlen, hbud, hchain⟩ := hinv
  refine ⟨rfl, rfl, hlen, ?_, hchain⟩
  intro h2
  have hfmt := format_chunk_text_length cur (by simpa [List.isEmpty_iff] using hne)
  have hb := hbud (by simpa [mkChunk] using h2)
  simp only [mkChunk] at *
  omega

theorem chunkLoop_good (ctx : ChunkCtx) :
    ∀ (ms cur : List Mirc.Message) (chars idx : Nat),
      BufInv ctx.session_date cur chars →
      ∀ c ∈ chunkLoop ctx cur chars idx ms, GoodChunk ctx.session_date c := by
  intro ms
  induction ms with
  | nil =>
    intro cur chars idx hinv c hc
    by_cases h : cur.isEmpty
    · simp [chunkLoop, h] at hc
    · have hb : cur.isEmpty = false := by simpa using h
      simp only [chunkLoop, hb, Bool.false_eq_true, if_false, List.mem_singleton] at hc
      subst hc
      exact mkChunk_good ctx cur chars idx (by simp [hb]) hinv
  | cons m rest ih =>
    intro cur chars idx hinv c hc
    simp only [chunkLoop] at hc
    split at hc
    · next hcond =>
      obtain ⟨hsn, hne⟩ := Bool.and_eq_true_iff.mp hcond
      rcases List.mem_cons.mp hc with heq | hmem
      · subst heq
        exact mkChunk_good ctx cur chars idx (by simpa using hne) hinv
      · refine ih [m] (msgLine m).length (idx + 1) ?_ c hmem
        exact ⟨by simp [sumChars], by simp [MAX_MESSAGES_PER_CHUNK], by simp, by simp⟩
    · next hcond =>
      refine ih (cur ++ [m]) (chars + (msgLine m).length) idx ?_ c hc
      obtain ⟨hchars, hlen, hbud, hchain⟩ := hinv
      by_cases hcur : cur.isEmpty
      · have hnil : cur = [] := List.isEmpty_iff.mp hcur
        subst hnil
        simp only [sumChars, List.map_nil, List.sum_nil] at hchars
        refine ⟨by simp [sumChars, hchars], by simp [MAX_MESSAGES_PER_CHUNK], by simp, by simp⟩
      · have hb : cur.isEmpty = false := by simpa using hcur
        have hsn : should_start_new cur chars m ctx.session_date = false := by
          cases hval : should_start_new cur chars m ctx.session_date with
          | false => rfl
          | true => exact absurd (by rw [hval]; simp [hb]) hcond
        simp only [should_start_new, Bool.or_eq_false_iff, decide_eq_false_iff_not] at hsn
        obtain ⟨⟨hgap, hcount⟩, hsize⟩ := hsn
        refine ⟨by rw [sumChars_append, hchars], ?_, ?_, ?_⟩
        · simp only [List.length_append, List.length_singleton]
          simp only [MAX_MESSAGES_PER_CHUNK] at hcount ⊢
          omega
        · intro _
          simp only [MAX_CHARS_PER_CHUNK] at hsize ⊢
          omega
        · rw [List.chain'_append]
          refine ⟨hchain, by simp, ?_⟩
          intro x hx y hy
          simp only [List.head?_cons, Option.mem_def, Option.some.injEq] at hy
          subst hy
          cases hlast : cur.getLast? with
          | none => rw [hlast] at hx; simp at hx
          | some prev =>
            rw [hlast] at hx
            simp only [Option.mem_def, Option.some.injEq] at hx
            subst hx
            rw [hlast] at hgap
            exact hgap

theorem chunkLoop_msgs_flatten (ctx : ChunkCtx) :
    ∀ (ms cur : List Mirc.Message) (chars idx : Nat),
      ((chunkLoop ctx cur chars idx ms).map Chunk.msgs).flatten = cur ++ ms := by
  intro ms
  induction ms with
  | nil =>
    intro cur chars idx
    by_cases h : cur.isEmpty
    · simp [chunkLoop, h, List.isEmpty_iff.mp h]
    · simp [chunkLoop, h, mkChunk]
  | cons m rest ih =>
    intro cur chars idx
    simp only [chunkLoop]
    split
    · simp [mkChunk, ih]
    · rw [ih]
      simp

theorem chunkLoop_indices (ctx : ChunkCtx) :
    ∀ (ms cur : List Mirc.Message) (chars idx : Nat),
      (chunkLoop ctx cur chars idx ms).map Chunk.chunk_index =
        List.range' idx (chunkLoop ctx cur chars idx ms).length := by
  intro ms
  induction ms with
  | nil =>
    intro cur chars idx
    by_cases h : cur.isEmpty <;> simp [chunkLoop, h, mkChunk]
  | cons m rest ih =>
    intro cur chars idx
    simp only [chunkLoop]
    split
    · simp only [List.map_cons, List.length_cons, List.range'_succ, mkChunk]
      rw [ih]
    · exact ih _ _ _

end Chunker

namespace Chunker

/-! ## Claim theorems about the chunker -/

theorem chunk_session_ctx_date (s : ChunkSessionR) : (mkCtx s).session_date = s.start_dt := rfl

theorem bufInv_nil (sd : Option IsoDateTime) : BufInv sd [] 0 :=
  ⟨by simp [sumChars], by simp [MAX_MESSAGES_PER_CHUNK], by simp, by simp⟩

/-- Claim C1. For every session, the chunks yielded by `chunk_session` carry
`chunk_index` values exactly `0..k-1` in emission order; each chunk's
`message_count` equals the number of buffered messages formatted into its
`text` (and `text` is exactly those messages formatted); and concatenating the
chunks' buffered message sequences in chunk order reproduces the session's
message sequence exactly. -/
theorem chunk_session_segmentation (s : ChunkSessionR) :
    (chunk_session s).map Chunk.chunk_index = List.range (chunk_session s).length ∧
    ((chunk_session s).map Chunk.msgs).flatten = s.messages ∧
    ∀ c ∈ chunk_session s,
      c.message_count = c.msgs.length ∧ c.text = format_chunk_text c.msgs := by
  unfold chunk_session
  by_cases h : s.messages.isEmpty
  · simp [h, List.isEmpty_iff.mp h]
  · have hb : s.messages.isEmpty = false := by simpa using h
    simp only [hb, Bool.false_eq_true, if_false]
    refine ⟨?_, ?_, ?_⟩
    · rw [chunkLoop_indices, List.range_eq_range' _]
    · rw [chunkLoop_msgs_flatten]
      simp
    · intro c hc
      have hg := chunkLoop_good (mkCtx s) s.messages [] 0 0 (bufInv_nil _) c hc
      exact ⟨hg.1, hg.2.1⟩

theorem chunk_session_segmentation_witness :
    ((chunk_session wSessionC1).map Chunk.chunk_index =
      List.range (chunk_session wSessionC1).length) ∧
    (((chunk_session wSessionC1).map Chunk.msgs).flatten = wSessionC1.messages) ∧
    ∃ c, c ∈ chunk_session wSessionC1 ∧
      c.message_count = c.msgs.length ∧ c.text = format_chunk_text c.msgs := by
  refine ⟨(chunk_session_segmentation wSessionC1).1,
          (chunk_session_segmentation wSessionC1).2.1, ?_⟩
  have hm : mkChunk (mkCtx wSessionC1) wSessionC1.messages 0 ∈ chunk_session wSessionC1 := by
    decide
  exact ⟨_, hm, (chunk_session_segmentation wSessionC1).2.2 _ hm⟩

/-- Claim C2 (amended). Every chunk yielded by `chunk_session` has
`message_count ≤ 20`; its `text` is within the 8000-character budget whenever
the chunk holds at least two messages (a single-message chunk may exceed the
budget when that one formatted line alone does — see the counterexample); and
inside one chunk no two consecutive messages whose times both parse under a
known session date are more than 30 minutes apart under the day-rollover gap
computation. -/
theorem chunk_session_bounds (s : ChunkSessionR) : ∀ c ∈ chunk_session s,
    c.message_count ≤ MAX_MESSAGES_PER_CHUNK ∧
    (2 ≤ c.message_count → c.text.length ≤ MAX_CHARS_PER_CHUNK) ∧
    List.Chain' (fun a b => ∀ p q, parse_time a.time s.start_dt = some p →
      parse_time b.time s.start_dt = some q →
      (if q < p then q + 1440 else q) - p ≤ TIME_GAP_MINUTES) c.msgs := by
  intro c hc
  unfold chunk_session at hc
  by_cases h : s.messages.isEmpty
  · simp [h] at hc
  · have hb : s.messages.isEmpty = false := by simpa using h
    simp only [hb, Bool.false_eq_true, if_false] at hc
    have hg := chunkLoop_good (mkCtx s) s.messages [] 0 0 (bufInv_nil _) c hc
    refine ⟨hg.2.2.1, hg.2.2.2.1, ?_⟩
    refine (hg.2.2.2.2).imp ?_
    intro a b hsp p q hp hq
    rw [chunk_session_ctx_date] at hsp
    simp only [should_split, hp, hq] at hsp
    by_cases hlt : q < p
    · simp only [if_pos hlt] at hsp ⊢
      simpa using of_decide_eq_false hsp
    · simp only [if_neg hlt] at hsp ⊢
      simpa using of_decide_eq_false hsp

theorem chunk_session_bounds_witness :
    ∃ c, c ∈ chunk_session wSessionC1 ∧ c.message_count ≤ MAX_MESSAGES_PER_CHUNK := by
  have hm : mkChunk (mkCtx wSessionC1) wSessionC1.messages 0 ∈ chunk_session wSessionC1 := by
    decide
  exact ⟨_, hm, (chunk_session_bounds wSessionC1 _ hm).1⟩

theorem chunk_session_single (s : ChunkSessionR) (m : Mirc.Message) (h : s.messages = [m]) :
    chunk_session s = [mkChunk (mkCtx s) [m] 0] := by
  unfold chunk_session
  rw [h]
  simp [chunkLoop]

/-- Claim C2, counterexample. The claim as stated is false: `chunk_session`
can emit a chunk whose `text` exceeds the 8000-character budget, because the
budget check only prevents *appending* to a non-empty buffer
(chunk_sessions.py:157-161), so a single message longer than the budget is
still buffered and flushed as an oversized chunk. -/
theorem chunk_text_budget_counterexample :
    ∃ c ∈ chunk_session cexSession, MAX_CHARS_PER_CHUNK < c.text.length := by
  rw [chunk_session_single cexSession ⟨"10:00", "a", ⟨List.replicate 8000 'x'⟩, false⟩ rfl]
  refine ⟨_, List.mem_singleton.mpr rfl, ?_⟩
  show MAX_CHARS_PER_CHUNK <
    (format_chunk_text [⟨"10:00", "a", ⟨List.replicate 8000 'x'⟩, false⟩]).length
  have h1 : ("a" : String).length = 1 := rfl
  have h2 : (": " : String).length = 2 := rfl
  have h3 : (⟨List.replicate 8000 'x'⟩ : String).length = 8000 := by
    show (List.replicate 8000 'x').length = 8000
    rw [List.length_replicate]
  simp only [format_chunk_text, joinNl, List.map_cons, List.map_nil, String.length_append,
    MAX_CHARS_PER_CHUNK, h1, h2, h3]
  omega

end Chunker

namespace Chunker

/-- Claim C4. In `should_split`, whenever both messages' times parse under a
known session date and the candidate's time is numerically less than the
previous message's, the candidate is moved one calendar day later before the
gap is computed, so the split decision is exactly `gap = curr + 1 day - prev >
30 minutes`; in particular `23:55` followed by `00:10` yields a 15-minute gap
and does not split. -/
theorem should_split_day_rollover :
    (∀ (prev curr : Mirc.Message) (sd : IsoDateTime) (p q : Int),
        parse_time prev.time (some sd) = some p →
        parse_time curr.time (some sd) = some q →
        q < p →
        should_split prev curr (some sd) = decide (q + 1440 - p > TIME_GAP_MINUTES)) ∧
    (∀ (n1 t1 : String) (b1 : Bool) (n2 t2 : String) (b2 : Bool) (sd : IsoDateTime),
        should_split ⟨"23:55", n1, t1, b1⟩ ⟨"00:10", n2, t2, b2⟩ (some sd) = false) := by
  constructor
  · intro prev curr sd p q hp hq hlt
    simp only [should_split, hp, hq, if_pos hlt]
  · intro n1 t1 b1 n2 t2 b2 sd
    have hs1 : (Mirc.splitOnChar ':' "23:55".data).map pyInt = [some (23 : Int), some 55] := by
      decide
    have hs2 : (Mirc.splitOnChar ':' "00:10".data).map pyInt = [some (0 : Int), some 10] := by
      decide
    have h1 : parse_time "23:55" (some sd) = some (sd.dayNumber * 1440 + 1435) := by
      have hne : ("23:55" : String).isEmpty = false := by decide
      simp only [parse_time, hs1, hne, Bool.false_eq_true, if_false]
      rw [if_pos (by decide : (0:Int) ≤ 23 ∧ (23:Int) ≤ 23 ∧ (0:Int) ≤ 55 ∧ (55:Int) ≤ 59)]
      congr 1
      omega
    have h2 : parse_time "00:10" (some sd) = some (sd.dayNumber * 1440 + 10) := by
      have hne : ("00:10" : String).isEmpty = false := by decide
      simp only [parse_time, hs2, hne, Bool.false_eq_true, if_false]
      rw [if_pos (by decide : (0:Int) ≤ 0 ∧ (0:Int) ≤ 23 ∧ (0:Int) ≤ 10 ∧ (10:Int) ≤ 59)]
      congr 1
      omega
    simp only [should_split, h1, h2]
    rw [if_pos (by omega : sd.dayNumber * 1440 + 10 < sd.dayNumber * 1440 + 1435)]
    have hg : sd.dayNumber * 1440 + 10 + 1440 - (sd.dayNumber * 1440 + 1435) = 15 := by omega
    rw [hg]
    rfl

theorem should_split_day_rollover_witness :
    should_split ⟨"12:00", "a", "x", false⟩ ⟨"00:05", "b", "y", true⟩ (some ⟨2003, 5, 0⟩) =
      decide ((5 * 1440 + 5 : Int) + 1440 - (5 * 1440 + 720) > TIME_GAP_MINUTES) ∧
    should_split ⟨"23:55", "n1", "t1", true⟩ ⟨"00:10", "n2", "t2", false⟩ (some ⟨1, 2, 3⟩) = false :=
  ⟨should_split_day_rollover.1 ⟨"12:00", "a", "x", false⟩ ⟨"00:05", "b", "y", true⟩
      ⟨2003, 5, 0⟩ (5 * 1440 + 720) (5 * 1440 + 5) (by decide) (by decide) (by decide),
   should_split_day_rollover.2 "n1" "t1" true "n2" "t2" false ⟨1, 2, 3⟩⟩

/-- Claim C5. If either time of a consecutive pair fails to parse (including
the case of a missing session start date, where `parse_time` is always
`None`), `should_split` returns `False`; consequently the flush decision
`should_start_new` degenerates to exactly the message-count and
character-budget checks. -/
theorem should_split_unparseable :
    (∀ (prev curr : Mirc.Message) (sd : Option IsoDateTime),
        parse_time prev.time sd = none ∨ parse_time curr.time sd = none →
        should_split prev curr sd = false) ∧
    (∀ (cur : List Mirc.Message) (chars : Nat) (m : Mirc.Message)
        (sd : Option IsoDateTime) (prev : Mirc.Message),
        cur.getLast? = some prev →
        parse_time prev.time sd = none ∨ parse_time m.time sd = none →
        should_start_new cur chars m sd =
          (decide (MAX_MESSAGES_PER_CHUNK ≤ cur.length) ||
           decide (MAX_CHARS_PER_CHUNK < chars + (msgLine m).length))) := by
  have part1 : ∀ (prev curr : Mirc.Message) (sd : Option IsoDateTime),
      parse_time prev.time sd = none ∨ parse_time curr.time sd = none →
      should_split prev curr sd = false := by
    intro prev curr sd h
    rcases h with h | h
    · simp [should_split, h]
    · cases hp : parse_time prev.time sd <;> simp [should_split, hp, h]
  refine ⟨part1, ?_⟩
  intro cur chars m sd prev hlast h
  simp only [should_start_new, hlast, part1 prev m sd h, Bool.false_or]

theorem should_split_unparseable_witness :
    should_split ⟨"banana", "a", "x", false⟩ ⟨"00:10", "b", "y", false⟩ (some ⟨2003, 0, 0⟩) = false ∧
    should_start_new [⟨"banana", "a", "x", false⟩] 7 ⟨"00:10", "b", "y", false⟩ (some ⟨2003, 0, 0⟩) =
      (decide (MAX_MESSAGES_PER_CHUNK ≤ ([(⟨"banana", "a", "x", false⟩ : Mirc.Message)]).length) ||
       decide (MAX_CHARS_PER_CHUNK < 7 + (msgLine ⟨"00:10", "b", "y", false⟩).length)) :=
  ⟨should_split_unparseable.1 ⟨"banana", "a", "x", false⟩ ⟨"00:10", "b", "y", false⟩
      (some ⟨2003, 0, 0⟩) (Or.inl (by decide)),
   should_split_unparseable.2 [⟨"banana", "a", "x", false⟩] 7 ⟨"00:10", "b", "y", false⟩
      (some ⟨2003, 0, 0⟩) ⟨"banana", "a", "x", false⟩ (by decide) (Or.inl (by decide))⟩

/-- Claim C10 (implicit). `process_sessions` writes a chunk iff
`chunk_session` yields it and its `message_count` reaches `min_messages`
(default 3); smaller chunks are silently dropped, so the surviving
`chunk_index` values can be non-contiguous (the session `gapSession` chunks
as sizes 3/1/3 and its written indices are `[0, 2]`), and a session whose
only chunk is below the threshold — e.g. a one-message session under the
default — produces no output at all. -/
theorem process_sessions_min_filter :
    (∀ (sessions : List ChunkSessionR) (minm : Nat) (c : Chunk),
        c ∈ process_sessions sessions minm ↔
          (∃ s ∈ sessions, c ∈ chunk_session s) ∧ minm ≤ c.message_count) ∧
    ((process_sessions [gapSession] DEFAULT_MIN_MESSAGES).map Chunk.chunk_index = [0, 2]) ∧
    (process_sessions [oneMsgSession] DEFAULT_MIN_MESSAGES = []) := by
  refine ⟨?_, by decide, by decide⟩
  intro sessions minm c
  simp [process_sessions, List.mem_filter, List.mem_flatten, List.mem_map]
  tauto

theorem process_sessions_min_filter_witness :
    (process_sessions [gapSession] DEFAULT_MIN_MESSAGES).map Chunk.chunk_index = [0, 2] ∧
    ¬ (mkChunk (mkCtx oneMsgSession) oneMsgSession.messages 0 ∈
        process_sessions [oneMsgSession] DEFAULT_MIN_MESSAGES) := by
  refine ⟨process_sessions_min_filter.2.1, ?_⟩
  intro hmem
  have := (process_sessions_min_filter.1 [oneMsgSession] DEFAULT_MIN_MESSAGES
    (mkChunk (mkCtx oneMsgSession) oneMsgSession.messages 0)).mp hmem
  exact absurd this.2 (by decide)

end Chunker

namespace Mirc

/-! ## Claim theorems about the parser -/

/-- Claim C3. `parse_log_file` attempts the fixed encoding list utf-8,
cp1252, latin-1, iso-8859-1 in order and uses the first read that succeeds;
when every encoding fails it reports a recoverable warning and yields no
sessions instead of raising. -/
theorem parse_log_file_encoding_fallback :
    encodings = ["utf-8", "cp1252", "latin-1", "iso-8859-1"] ∧
    (∀ (decode : String → Option (List String)) (fp : String),
        (∀ e ∈ encodings, decode e = none) →
        parse_log_file decode fp = ⟨[], true⟩) ∧
    (∀ (decode : String → Option (List String)) (pre : List String) (e : String)
        (post : List String) (content : List String),
        (∀ x ∈ pre, decode x = none) → decode e = some content →
        firstDecode decode (pre ++ e :: post) = some content) ∧
    (∀ (decode : String → Option (List String)) (fp : String) (content : List String),
        firstDecode decode encodings = some content →
        parse_log_file decode fp = ⟨parseLogFileLines fp content, false⟩) := by
  refine ⟨rfl, ?_, ?_, ?_⟩
  · intro decode fp hall
    have hnone : ∀ l : List String, (∀ e ∈ l, decode e = none) → firstDecode decode l = none := by
      intro l
      induction l with
      | nil => intro _; rfl
      | cons a as ih =>
        intro hfail
        simp only [firstDecode, hfail a (by simp)]
        exact ih (fun e he => hfail e (by simp [he]))
    unfold parse_log_file
    rw [hnone encodings hall]
  · intro decode pre e post content hpre hd
    induction pre with
    | nil => simp [firstDecode, hd]
    | cons a as ih =>
      simp only [List.cons_append, firstDecode, hpre a (by simp)]
      exact ih (fun x hx => hpre x (by simp [hx]))
  · intro decode fp content hfirst
    unfold parse_log_file
    rw [hfirst]

theorem parse_log_file_encoding_fallback_witness :
    parse_log_file (fun _ => none) "w.log" = ⟨[], true⟩ ∧
    firstDecode (fun e => if e = "cp1252" then some ["x"] else none)
      (["utf-8"] ++ "cp1252" :: ["latin-1", "iso-8859-1"]) = some ["x"] ∧
    parse_log_file (fun e => if e = "utf-8" then some [] else none) "w.log" =
      ⟨parseLogFileLines "w.log" [], false⟩ :=
  ⟨parse_log_file_encoding_fallback.2.1 (fun _ => none) "w.log" (fun _ _ => rfl),
   parse_log_file_encoding_fallback.2.2.1 (fun e => if e = "cp1252" then some ["x"] else none)
     ["utf-8"] "cp1252" ["latin-1", "iso-8859-1"] ["x"] (by decide) (by decide),
   parse_log_file_encoding_fallback.2.2.2 (fun e => if e = "utf-8" then some [] else none)
     "w.log" [] (by decide)⟩

/-- Claim C7. Parsing the four-line synthetic transcript yields exactly one
session: participants `["alice", "bob"]`, two messages in order with
`is_self` false then true, and start/end timestamps parsed from the two
marker lines. -/
theorem parse_round_trip :
    parseLogFileLines "bob.log"
      ["Session Start: Tue Dec 09 18:27:34 2003",
       "[18:30] [alice] hello",
       "[19:05] (bob) hi there",
       "Session Close: Tue Dec 09 19:06:00 2003"] =
    [{ session_id := "bob_0001", source_file := "bob.log", channel := none,
       target_nick := some "bob",
       start_time := some ⟨2003, 12, 9, 18, 27, 34⟩,
       end_time := some ⟨2003, 12, 9, 19, 6, 0⟩,
       participants := ["alice", "bob"],
       messages := [⟨"18:30", "alice", "hello", false⟩, ⟨"19:05", "bob", "hi there", true⟩],
       network := none }] := by
  decide

/-! ### Lemmas for `strip_mirc_codes` (C9) -/

theorem dropDigits12_sublist : ∀ (l : List Char), List.Sublist (dropDigits12 l) l
  | [] => List.Sublist.refl _
  | [d1] => by
    by_cases h : d1.isDigit
    · simp only [dropDigits12, h, if_true]
      exact List.nil_sublist _
    · simp only [dropDigits12, h, Bool.false_eq_true, if_false]
      exact List.Sublist.refl _
  | d1 :: d2 :: r => by
    by_cases h1 : d1.isDigit
    · by_cases h2 : d2.isDigit
      · simp only [dropDigits12, h1, h2, if_true]
        exact (List.sublist_cons_self d2 r).trans (List.sublist_cons_self d1 (d2 :: r))
      · simp only [dropDigits12, h1, h2, Bool.false_eq_true, if_false, if_true]
        exact List.sublist_cons_self d1 (d2 :: r)
    · simp only [dropDigits12, h1, Bool.false_eq_true, if_false]
      exact List.Sublist.refl _

theorem dropColorArg_sublist (l : List Char) : List.Sublist (dropColorArg l) l := by
  match l with
  | [] => exact List.Sublist.refl _
  | d1 :: rest =>
    by_cases h : d1.isDigit
    · have hd := dropDigits12_sublist (d1 :: rest)
      simp only [dropColorArg, h, if_true]
      split
      · next e1 r heq =>
        split
        · have h2 := dropDigits12_sublist (e1 :: r)
          have hd2 := hd
          rw [heq] at hd2
          exact (h2.trans (List.sublist_cons_self ',' (e1 :: r))).trans hd2
        · exact hd
      · exact hd
    · simp only [dropColorArg, h, Bool.false_eq_true, if_false]
      exact List.Sublist.refl _

theorem removeColor_sublist (l : List Char) : List.Sublist (removeColor l) l := by
  have H : ∀ (n : Nat) (l : List Char), l.length ≤ n → List.Sublist (removeColor l) l := by
    intro n
    induction n with
    | zero =>
      intro l hl
      have hnil : l = [] := List.eq_nil_of_length_eq_zero (Nat.le_zero.mp hl)
      subst hnil
      exact List.Sublist.refl _
    | succ n ih =>
      intro l hl
      match l with
      | [] => exact List.Sublist.refl _
      | c :: rest =>
        by_cases hc : c = '\u0003'
        · subst hc
          rw [removeColor_cons_color]
          have hle : (dropColorArg rest).length ≤ n := by
            have := dropColorArg_length_le rest
            simp only [List.length_cons] at hl
            omega
          exact ((ih _ hle).trans (dropColorArg_sublist rest)).trans
            (List.sublist_cons_self _ _)
        · rw [removeColor_cons_ne c rest hc]
          have hle : rest.length ≤ n := by simp only [List.length_cons] at hl; omega
          exact (ih _ hle).cons₂ c
  exact H l.length l (Nat.le_refl _)

theorem pyStripList_sublist (l : List Char) : List.Sublist (pyStripList l) l := by
  unfold pyStripList
  have h1 : List.Sublist (l.dropWhile isPySpace) l := List.dropWhile_sublist _
  have h2 : List.Sublist ((l.dropWhile isPySpace).reverse.dropWhile isPySpace)
      (l.dropWhile isPySpace).reverse := List.dropWhile_sublist _
  have h3 := h2.reverse
  rw [List.reverse_reverse] at h3
  exact h3.trans h1

theorem removeColor_id (l : List Char) (h : ∀ c ∈ l, c ≠ '\u0003') : removeColor l = l := by
  induction l with
  | nil => rfl
  | cons c rest ih =>
    rw [removeColor_cons_ne c rest (h c (by simp)), ih (fun x hx => h x (by simp [hx]))]

/-- Claim C9 (amended). `strip_mirc_codes` is a total pure function that
removes only characters of its input — its output is always a sublist of the
input — and on inputs containing none of the listed color/style codes or
decorative glyphs it returns exactly the input with outer whitespace trimmed:
contrary to the claim, the function itself ends in `text.strip()` (see the
counterexample), and message text is additionally stripped at extraction
time. -/
theorem strip_mirc_codes_amended :
    (∀ s : String, List.Sublist (strip_mirc_codes s).data s.data) ∧
    (∀ s : String,
      (∀ c ∈ s.data, c ≠ '\u0003' ∧ isToggle c = false ∧ isDecor c = false) →
      strip_mirc_codes s = pyStrip s) := by
  constructor
  · intro s
    show List.Sublist (pyStripList (removeDecor (removeToggles (removeColor s.data)))) s.data
    have h1 := removeColor_sublist s.data
    have h2 : List.Sublist (removeToggles (removeColor s.data)) (removeColor s.data) :=
      List.filter_sublist _
    have h3 : List.Sublist (removeDecor (removeToggles (removeColor s.data)))
        (removeToggles (removeColor s.data)) := List.filter_sublist _
    exact (((pyStripList_sublist _).trans h3).trans h2).trans h1
  · intro s h
    show (⟨pyStripList (removeDecor (removeToggles (removeColor s.data)))⟩ : String) =
      ⟨pyStripList s.data⟩
    rw [removeColor_id s.data (fun c hc => (h c hc).1)]
    rw [removeToggles, List.filter_eq_self.mpr
      (fun c hc => by simp [(h c hc).2.1])]
    rw [removeDecor, List.filter_eq_self.mpr
      (fun c hc => by simp [(h c hc).2.2])]

/-- Claim C9, counterexample. The claim's "performs no whitespace trimming,
outer whitespace preserved" is false: `strip_mirc_codes` returns
`text.strip()` (parse_mirc_logs.py:130), so surrounding whitespace is removed
by the normalizer itself. -/
theorem strip_mirc_codes_trim_counterexample :
    strip_mirc_codes "  hello  " = "hello" ∧ strip_mirc_codes "  hello  " ≠ "  hello  " := by
  decide

theorem strip_mirc_codes_amended_witness :
    List.Sublist (strip_mirc_codes "ab c").data ("ab c" : String).data ∧
    strip_mirc_codes " hi " = pyStrip " hi " :=
  ⟨strip_mirc_codes_amended.1 "ab c", strip_mirc_codes_amended.2 " hi " (by decide)⟩

end Mirc

namespace Mirc

/-! ### Session-builder invariants (C6) -/

theorem dedupStr_append (l : List String) (a : String) :
    dedupStr (l ++ [a]) = addNick (dedupStr l) a := by
  simp [dedupStr, List.foldl_append]

theorem initPState_inv : PInv initPState := by
  constructor
  · intro cs hcs
    cases hcs
  · intro s hs
    cases hs

theorem finalizeEmit_inv (st : PState) (h : PInv st) :
    ∀ s ∈ finalizeEmit st, s.messages ≠ [] ∧
      s.participants = participantsOfNicks (s.messages.map Message.nick) := by
  intro s hs
  unfold finalizeEmit at hs
  cases hcur : st.current with
  | none => rw [hcur] at hs; exact h.2 s hs
  | some cs =>
    rw [hcur] at hs
    by_cases hm : cs.messages.isEmpty
    · simp only [hm, if_true] at hs
      exact h.2 s hs
    · have hb : cs.messages.isEmpty = false := by simpa using hm
      simp only [hb, Bool.false_eq_true, if_false, List.mem_append,
        List.mem_singleton] at hs
      rcases hs with hs | hs
      · exact h.2 s hs
      · subst hs
        have hne : cs.messages ≠ [] := fun hnil => hm (by simp [hnil])
        refine ⟨hne, ?_⟩
        show sortStrings st.participants = _
        rw [h.1 cs hcur]
        rfl

theorem appendMsg_inv (st : PState) (cs : SessionR) (hcur : st.current = some cs)
    (h : PInv st) (m : Message) :
    PInv { st with
      current := some { cs with messages := cs.messages ++ [m] },
      participants := addNick st.participants m.nick } := by
  refine ⟨?_, h.2⟩
  intro cs' hcs'
  simp only [Option.some.injEq] at hcs'
  subst hcs'
  show addNick st.participants m.nick = dedupStr ((cs.messages ++ [m]).map Message.nick)
  rw [List.map_append, List.map_cons, List.map_nil, dedupStr_append, h.1 cs hcur]

theorem processMsgPart_inv (st : PState) (line : String) (h : PInv st) :
    PInv (processMsgPart st line) := by
  unfold processMsgPart
  cases hcur : st.current with
  | none => exact h
  | some cs =>
    by_cases hn : is_noise_line line
    · simp only [hn, if_true]
      exact h
    · simp only [hn, Bool.false_eq_true, if_false]
      cases hother : otherMsgMatch (strip_mirc_codes line) with
      | some triple =>
        obtain ⟨t, nick, txt⟩ := triple
        by_cases htxt : (pyStrip txt).isEmpty
        · simp only [htxt, if_true]
          exact h
        · simp only [htxt, Bool.false_eq_true, if_false]
          exact appendMsg_inv st cs hcur h ⟨t, nick, pyStrip txt, false⟩
      | none =>
        cases hyour : yourMsgMatch (strip_mirc_codes line) with
        | some triple =>
          obtain ⟨t, nick, txt⟩ := triple
          by_cases htxt : (pyStrip txt).isEmpty
          · simp only [htxt, if_true]
            exact h
          · simp only [htxt, Bool.false_eq_true, if_false]
            exact appendMsg_inv st cs hcur h ⟨t, nick, pyStrip txt, true⟩
        | none => exact h

theorem processLine_inv (cfg : FileCfg) (st : PState) (raw : String) (h : PInv st) :
    PInv (processLine cfg st raw) := by
  simp only [processLine]
  split
  · refine ⟨?_, ?_⟩
    · intro cs hcs
      simp only [Option.some.injEq] at hcs
      subst hcs
      rfl
    · exact finalizeEmit_inv st h
  · split
    · next rest cs hclose hcur =>
      refine ⟨?_, h.2⟩
      intro cs' hcs'
      simp only [Option.some.injEq] at hcs'
      subst hcs'
      exact h.1 cs hcur
    · split
      · next ident cs hident hcur hch =>
        split
        · refine ⟨?_, h.2⟩
          intro cs' hcs'
          simp only [Option.some.injEq] at hcs'
          subst hcs'
          exact h.1 cs hcur
        · exact h
      · exact processMsgPart_inv st _ h

theorem runLines_inv (cfg : FileCfg) :
    ∀ (lines : List String) (st : PState), PInv st → PInv (runLines cfg st lines)
  | [], _, h => h
  | l :: rest, st, h => runLines_inv cfg rest _ (processLine_inv cfg st l h)

theorem finalizeEmit_some_ne (st : PState) (cs : SessionR) (hcur : st.current = some cs)
    (hne : cs.messages ≠ []) :
    finalizeEmit st = st.emitted ++ [{ cs with participants := sortStrings st.participants }] := by
  unfold finalizeEmit
  rw [hcur]
  have hb : cs.messages.isEmpty = false := by
    cases hmm : cs.messages with
    | nil => exact absurd hmm hne
    | cons a l => rfl
  simp only [hb, Bool.false_eq_true, if_false]

theorem finalizeEmit_some_nil (st : PState) (cs : SessionR) (hcur : st.current = some cs)
    (hnil : cs.messages = []) : finalizeEmit st = st.emitted := by
  unfold finalizeEmit
  rw [hcur]
  simp [hnil]

/-- Claim C6. `parse_log_file` never yields a session with an empty message
list: every yielded session is non-empty, with participants finalised to the
sorted distinct identities of its messages; an open session at end of input
is frozen and emitted when it has at least one message and discarded when it
has none; and exactly the same freeze-or-discard happens when a subsequent
`Session Start` line is processed while a session is open. -/
theorem parse_log_file_no_empty_sessions (fp : String) (lines : List String) :
    (∀ s ∈ parseLogFileLines fp lines, s.messages ≠ [] ∧
        s.participants = participantsOfNicks (s.messages.map Message.nick)) ∧
    (∀ cs, (runLines (mkFileCfg fp) initPState lines).current = some cs →
        (cs.messages ≠ [] →
          parseLogFileLines fp lines =
            (runLines (mkFileCfg fp) initPState lines).emitted ++
              [{ cs with participants :=
                  sortStrings (runLines (mkFileCfg fp) initPState lines).participants }]) ∧
        (cs.messages = [] →
          parseLogFileLines fp lines = (runLines (mkFileCfg fp) initPState lines).emitted)) ∧
    (∀ (st : PState) (raw r : String) (cs : SessionR),
        sessionStartMatch (pyRstripNl raw) = some r → st.current = some cs →
        (cs.messages ≠ [] →
          (processLine (mkFileCfg fp) st raw).emitted =
            st.emitted ++ [{ cs with participants := sortStrings st.participants }]) ∧
        (cs.messages = [] →
          (processLine (mkFileCfg fp) st raw).emitted = st.emitted)) := by
  refine ⟨?_, ?_, ?_⟩
  · intro s hs
    exact finalizeEmit_inv _ (runLines_inv _ lines initPState initPState_inv) s hs
  · intro cs hcur
    exact ⟨fun hne => finalizeEmit_some_ne _ cs hcur hne,
           fun hnil => finalizeEmit_some_nil _ cs hcur hnil⟩
  · intro st raw r cs hmatch hcur
    have hred : (processLine (mkFileCfg fp) st raw).emitted = finalizeEmit st := by
      simp only [processLine, hmatch]
    rw [hred]
    exact ⟨fun hne => finalizeEmit_some_ne st cs hcur hne,
           fun hnil => finalizeEmit_some_nil st cs hcur hnil⟩

theorem parse_log_file_no_empty_sessions_witness :
    (∃ s, s ∈ parseLogFileLines "w.log" ["Session Start: Tue Dec 09 18:27:34 2003",
        "[18:30] [alice] hello"] ∧ s.messages ≠ [] ∧
        s.participants = participantsOfNicks (s.messages.map Message.nick)) ∧
    parseLogFileLines "w.log" ["Session Start: Tue Dec 09 18:27:34 2003"] =
      (runLines (mkFileCfg "w.log") initPState
        ["Session Start: Tue Dec 09 18:27:34 2003"]).emitted := by
  constructor
  · have hlines : ∀ s ∈ parseLogFileLines "w.log"
        ["Session Start: Tue Dec 09 18:27:34 2003", "[18:30] [alice] hello"],
        s.messages ≠ [] ∧ s.participants = participantsOfNicks (s.messages.map Message.nick) :=
      (parse_log_file_no_empty_sessions "w.log" _).1
    refine ⟨⟨"w_0001", "w.log", none, some "w", some ⟨2003, 12, 9, 18, 27, 34⟩,
        none, ["alice"], [⟨"18:30", "alice", "hello", false⟩], none⟩,
      by decide, hlines _ (by decide)⟩
  · exact ((parse_log_file_no_empty_sessions "w.log" _).2.1
      ⟨"w_0001", "w.log", none, some "w", some ⟨2003, 12, 9, 18, 27, 34⟩,
        none, [], [], none⟩ (by decide)).2 (by decide)

end Mirc

namespace Mirc

/-! ### Noise lines leave an open session untouched (C8) -/

/-- No noise pattern matches a cleaned line whose first character is `S`:
every pattern requires a different first character (a bracket, glyph,
asterisk, digit, keyword letter or whitespace). -/
theorem noiseAny_S (l : List Char) : noiseAny ('S' :: l) = false := rfl

theorem afterLit_some (p l r : List Char) (h : afterLit p l = some r) :
    ∃ t, l = p ++ t := by
  unfold afterLit at h
  split at h
  · next hp =>
    obtain ⟨t, ht⟩ := List.isPrefixOf_iff_prefix.mp hp
    exact ⟨t, ht.symm⟩
  · cases h

theorem removeColor_clean_prefix (p r : List Char) (h : ∀ c ∈ p, c ≠ '\u0003') :
    removeColor (p ++ r) = p ++ removeColor r := by
  induction p with
  | nil => simp
  | cons c ps ih =>
    rw [List.cons_append, removeColor_cons_ne c _ (h c (by simp)),
      ih (fun x hx => h x (by simp [hx])), List.cons_append]

theorem dropWhile_append_last (pfn : Char → Bool) (c : Char) (h : pfn c = false) :
    ∀ (l : List Char), ∃ t, (l ++ [c]).dropWhile pfn = t ++ [c]
  | [] => ⟨[], by simp [List.dropWhile, h]⟩
  | a :: as => by
    by_cases ha : pfn a = true
    · obtain ⟨t, ht⟩ := dropWhile_append_last pfn c h as
      exact ⟨t, by simp [List.dropWhile, ha, ht]⟩
    · exact ⟨a :: as, by simp [List.dropWhile, ha]⟩

/-- Stripping preserves a non-whitespace head character. -/
theorem pyStripList_head (c : Char) (l : List Char) (h : isPySpace c = false) :
    ∃ t, pyStripList (c :: l) = c :: t := by
  unfold pyStripList
  rw [List.dropWhile_cons, if_neg (by simp [h])]
  rw [List.reverse_cons]
  obtain ⟨t, ht⟩ := dropWhile_append_last isPySpace c h l.reverse
  rw [ht, List.reverse_append]
  exact ⟨t.reverse, rfl⟩

/-- Cleaning a line that begins with a marker prefix (clean characters with a
non-whitespace head `'S'`) yields a string still headed by `'S'`. -/
theorem strip_mirc_codes_head_S (ptail r : List Char) (line : String)
    (hline : line.data = ('S' :: ptail) ++ r)
    (hclean : ∀ c ∈ 'S' :: ptail, c ≠ '\u0003' ∧ isToggle c = false ∧ isDecor c = false) :
    ∃ t, (strip_mirc_codes line).data = 'S' :: t := by
  show ∃ t, pyStripList (removeDecor (removeToggles (removeColor line.data))) = 'S' :: t
  rw [hline, removeColor_clean_prefix _ _ (fun c hc => (hclean c hc).1)]
  rw [removeToggles, List.filter_append,
    List.filter_eq_self.mpr (fun c hc => by simp [(hclean c hc).2.1])]
  rw [removeDecor, List.filter_append,
    List.filter_eq_self.mpr (fun c hc => by simp [(hclean c hc).2.2])]
  rw [List.cons_append]
  exact pyStripList_head 'S' _ (by decide)

/-- A line matching one of the three session-marker patterns is never a noise
line: its cleaned form still starts with `'S'`, which no noise pattern
accepts. -/
theorem marker_not_noise (line : String) (mk : List Char) (t : List Char)
    (hmk : mk = "Session Start: ".data ∨ mk = "Session Close: ".data ∨
      mk = "Session Ident: ".data)
    (hline : line.data = mk ++ t) :
    is_noise_line line = false := by
  have hhead : ∃ ptail, mk = 'S' :: ptail ∧
      (∀ c ∈ 'S' :: ptail, c ≠ '\u0003' ∧ isToggle c = false ∧ isDecor c = false) := by
    rcases hmk with h | h | h <;> subst h
    · exact ⟨"ession Start: ".data, by decide, by decide⟩
    · exact ⟨"ession Close: ".data, by decide, by decide⟩
    · exact ⟨"ession Ident: ".data, by decide, by decide⟩
  obtain ⟨ptail, hS, hclean⟩ := hhead
  subst hS
  obtain ⟨u, hu⟩ := strip_mirc_codes_head_S ptail t line hline hclean
  unfold is_noise_line
  rw [hu]
  exact noiseAny_S u

/-- Claim C8. While a session is open, the noise check runs before either
message pattern is tried, and a line matching any noise pattern leaves the
whole parser state unchanged: nothing is appended to the session, no identity
joins the participant accumulator, and the open session is neither closed nor
reset (noise lines cannot match any of the three session-marker patterns,
whose lines are never classified as noise). -/
theorem noise_line_leaves_state (cfg : FileCfg) (st : PState) (raw : String) (cs : SessionR)
    (hopen : st.current = some cs) (hnoise : is_noise_line (pyRstripNl raw) = true) :
    processLine cfg st raw = st := by
  have hstart : sessionStartMatch (pyRstripNl raw) = none := by
    cases hm : sessionStartMatch (pyRstripNl raw) with
    | none => rfl
    | some r =>
      exfalso
      unfold sessionStartMatch at hm
      cases ha : afterLit "Session Start: ".data (pyRstripNl raw).data with
      | none => rw [ha] at hm; cases hm
      | some rr =>
        obtain ⟨t, ht⟩ := afterLit_some _ _ _ ha
        rw [marker_not_noise (pyRstripNl raw) _ t (Or.inl rfl) ht] at hnoise
        cases hnoise
  have hclose : sessionCloseMatch (pyRstripNl raw) = none := by
    cases hm : sessionCloseMatch (pyRstripNl raw) with
    | none => rfl
    | some r =>
      exfalso
      unfold sessionCloseMatch at hm
      cases ha : afterLit "Session Close: ".data (pyRstripNl raw).data with
      | none => rw [ha] at hm; cases hm
      | some rr =>
        obtain ⟨t, ht⟩ := afterLit_some _ _ _ ha
        rw [marker_not_noise (pyRstripNl raw) _ t (Or.inr (Or.inl rfl)) ht] at hnoise
        cases hnoise
  have hident : sessionIdentMatch (pyRstripNl raw) = none := by
    cases hm : sessionIdentMatch (pyRstripNl raw) with
    | none => rfl
    | some r =>
      exfalso
      unfold sessionIdentMatch at hm
      cases ha : afterLit "Session Ident: ".data (pyRstripNl raw).data with
      | none => rw [ha] at hm; cases hm
      | some rr =>
        obtain ⟨t, ht⟩ := afterLit_some _ _ _ ha
        rw [marker_not_noise (pyRstripNl raw) _ t (Or.inr (Or.inr rfl)) ht] at hnoise
        cases hnoise
  simp only [processLine, hstart, hclose, hident]
  unfold processMsgPart
  rw [hopen]
  simp only [hnoise, if_true]

theorem noise_line_leaves_state_witness :
    processLine (mkFileCfg "w.log") wOpenState "*** Disconnected" = wOpenState :=
  noise_line_leaves_state (mkFileCfg "w.log") wOpenState "*** Disconnected"
    ⟨"w_0001", "w.log", none, some "w", none, none, [],
      [⟨"10:00", "ann", "hi", false⟩], none⟩ rfl (by decide)

end Mirc
